import Mathlib

/-!
Verification of the CLI presentation / session-context layer
(`src/communex/cli/_common.py`) against its specification.

Python values appearing in the record pipeline are modelled by `PyVal`;
Python dictionaries (which preserve insertion order and have unique keys)
are modelled by ordered association lists, with `dictGet?` / `dictSet` /
`dictDel` mirroring `d[k]` lookup, `d[k] = v` assignment (replace in
place, else append) and `del d[k]` (`KeyError` when the key is absent).
Numeric raw ledger units are integers per the data-model invariant; the
results of the unit conversions (Python floats) are modelled as exact
rationals.
-/

inductive PyVal where
  | int (n : Int)
  | rat (q : Rat)
  | bool (b : Bool)
  | str (s : String)
  | none
  | dict (entries : List (String × PyVal))
deriving Repr

abbrev PyDict := List (String × PyVal)

/-- Python exceptions that the modelled code can raise. -/
inductive PyErr where
  | keyError (key : String)
  | typeError
  | valueError (msg : String)
  | indexError
  | connectionError (msg : String)
deriving Repr, DecidableEq

/-- Mirrors the Python test `value is None`. -/
def PyVal.isNone : PyVal → Bool
  | PyVal.none => true
  | _ => false

/-- The integer content of a value, when it is an integer. -/
def PyVal.asInt? : PyVal → Option Int
  | PyVal.int n => some n
  | _ => Option.none

/-- The numeric content of a value (int or float), as a rational. -/
def PyVal.asNum? : PyVal → Option Rat
  | PyVal.int n => some (n : Rat)
  | PyVal.rat q => some q
  | _ => Option.none

/-- First-match lookup, mirroring `d.get(k)` on a Python dict. -/
def dictGet? : PyDict → String → Option PyVal
  | [], _ => Option.none
  | (k, v) :: rest, key => if k = key then some v else dictGet? rest key

/-- `d[k] = v`: replace in place when the key exists, else append. -/
def dictSet : PyDict → String → PyVal → PyDict
  | [], key, val => [(key, val)]
  | (k, v) :: rest, key, val =>
    if k = key then (k, val) :: rest else (k, v) :: dictSet rest key val

/-- `del d[k]`: remove the entry; `Option.none` models `KeyError`. -/
def dictDel : PyDict → String → Option PyDict
  | [], _ => Option.none
  | (k, v) :: rest, key =>
    if k = key then some rest else (dictDel rest key).map (fun r => (k, v) :: r)

/-- `d[k]` subscript read: `KeyError` when the key is absent. -/
def getItem (m : PyDict) (key : String) : Except PyErr PyVal :=
  match dictGet? m key with
  | some v => Except.ok v
  | Option.none => Except.error (PyErr.keyError key)

/-- The key list of a dict, in insertion order. -/
def keysOf (m : PyDict) : List String := m.map Prod.fst

/-- `remove_none_values` (source lines 306-319): removes key-value pairs
whose value is `None`, recursing into nested dictionaries; a nested dict
is always kept (the source's `cleaned_value is not None` test is always
true for a dict), even when cleaning left it empty. -/
def remove_none_values : PyDict → PyDict
  | [] => []
  | (k, PyVal.dict d) :: rest =>
    (k, PyVal.dict (remove_none_values d)) :: remove_none_values rest
  | (_, PyVal.none) :: rest => remove_none_values rest
  | (k, v) :: rest => (k, v) :: remove_none_values rest

/-- Claim-side reading of "contains no null values at any nesting depth". -/
def noNones : PyDict → Bool
  | [] => true
  | (_, PyVal.none) :: _ => false
  | (_, PyVal.dict d) :: rest => noNones d && noNones rest
  | (_, _) :: rest => noNones rest

theorem remove_none_values_idem (l : PyDict) :
    remove_none_values (remove_none_values l) = remove_none_values l := by
  induction l using remove_none_values.induct with
  | _ => simp_all [remove_none_values]

theorem noNones_remove_none_values (l : PyDict) :
    noNones (remove_none_values l) = true := by
  induction l using remove_none_values.induct with
  | _ => simp_all [remove_none_values, noNones]

theorem keysOf_remove_none_values (l : PyDict) :
    keysOf (remove_none_values l) =
      keysOf (l.filter (fun p => !p.2.isNone)) := by
  induction l using remove_none_values.induct with
  | _ => simp_all [remove_none_values, keysOf, PyVal.isNone, List.filter]

theorem remove_none_values_mem_dict (l d : PyDict) (k : String)
    (h : (k, PyVal.dict d) ∈ l) :
    (k, PyVal.dict (remove_none_values d)) ∈ remove_none_values l := by
  induction l with
  | nil => cases h
  | cons p rest ih =>
    obtain ⟨k₀, v₀⟩ := p
    rcases List.mem_cons.mp h with h | htail
    · cases h
      simp [remove_none_values]
    · cases v₀ <;> simp [remove_none_values] <;>
        first
          | exact ih htail
          | exact Or.inr (ih htail)

/-- C7: `remove_none_values` removes exactly the keys whose value is null
(the surviving keys are those of the entries whose value is not `None`),
recurses into nested maps (a nested dict entry survives with its cleaned
contents, even when cleaning empties it), and on the concrete input
mapping a to 1, b to null, and c to a nested map of d to null and e to 2,
it yields the map of a to 1 and c to the nested map of e to 2. -/
theorem c7_remove_none_values_behavior :
    (∀ l : PyDict,
      keysOf (remove_none_values l) =
        keysOf (l.filter (fun p => !p.2.isNone))) ∧
    (∀ (l d : PyDict) (k : String), (k, PyVal.dict d) ∈ l →
      (k, PyVal.dict (remove_none_values d)) ∈ remove_none_values l) ∧
    remove_none_values
      [("a", PyVal.int 1), ("b", PyVal.none),
       ("c", PyVal.dict [("d", PyVal.none), ("e", PyVal.int 2)])] =
      [("a", PyVal.int 1), ("c", PyVal.dict [("e", PyVal.int 2)])] :=
  ⟨keysOf_remove_none_values, remove_none_values_mem_dict, by
    simp [remove_none_values]⟩

/-- Witness for C7: the nested-dict preservation clause applied to the
concrete singleton dict whose nested map empties out after cleaning. -/
theorem c7_remove_none_values_behavior_witness :
    ("c", PyVal.dict (remove_none_values [("d", PyVal.none)])) ∈
      remove_none_values [("c", PyVal.dict [("d", PyVal.none)])] :=
  c7_remove_none_values_behavior.2.1 _ [("d", PyVal.none)] "c"
    (List.Mem.head _)

/-- C9: `remove_none_values` is idempotent, and its output contains no
null values at any nesting depth. -/
theorem c9_remove_none_values_idempotent :
    ∀ l : PyDict,
      remove_none_values (remove_none_values l) = remove_none_values l ∧
      noNones (remove_none_values l) = true :=
  fun l => ⟨remove_none_values_idem l, noNones_remove_none_values l⟩

/-! ### Dictionary-operation lemmas -/

theorem dictGet?_set_self (m : PyDict) (k : String) (v : PyVal) :
    dictGet? (dictSet m k v) k = some v := by
  induction m with
  | nil => simp [dictSet, dictGet?]
  | cons p rest ih =>
    obtain ⟨k₀, v₀⟩ := p
    by_cases h : k₀ = k <;> simp [dictSet, dictGet?, h, ih]

theorem dictGet?_set_ne (m : PyDict) (k k' : String) (v : PyVal)
    (h : k ≠ k') : dictGet? (dictSet m k v) k' = dictGet? m k' := by
  induction m with
  | nil => simp [dictSet, dictGet?, h]
  | cons p rest ih =>
    obtain ⟨k₀, v₀⟩ := p
    by_cases hk : k₀ = k
    · subst hk
      simp [dictSet, dictGet?, h]
    · simp [dictSet, dictGet?, hk, ih]

theorem dictGet?_del_ne (m m' : PyDict) (k k' : String)
    (h : dictDel m k = some m') (hne : k ≠ k') :
    dictGet? m' k' = dictGet? m k' := by
  induction m generalizing m' with
  | nil => simp [dictDel] at h
  | cons p rest ih =>
    obtain ⟨k₀, v₀⟩ := p
    by_cases hk : k₀ = k
    · subst hk
      simp [dictDel] at h
      subst h
      simp [dictGet?, hne]
    · simp [dictDel, hk] at h
      obtain ⟨r, hr, rfl⟩ := h
      by_cases hk' : k₀ = k' <;> simp [dictGet?, hk', ih r hr]

theorem keysOf_cons (k : String) (v : PyVal) (rest : PyDict) :
    keysOf ((k, v) :: rest) = k :: keysOf rest := rfl

theorem dictGet?_none_of_not_mem_keys (m : PyDict) (k : String)
    (h : k ∉ keysOf m) : dictGet? m k = Option.none := by
  induction m with
  | nil => simp [dictGet?]
  | cons p rest ih =>
    obtain ⟨k₀, v₀⟩ := p
    rw [keysOf_cons, List.mem_cons] at h
    push_neg at h
    simp [dictGet?, Ne.symm h.1, ih h.2]

theorem keysOf_dictDel_sublist (m m' : PyDict) (k : String)
    (h : dictDel m k = some m') : (keysOf m').Sublist (keysOf m) := by
  induction m generalizing m' with
  | nil => simp [dictDel] at h
  | cons p rest ih =>
    obtain ⟨k₀, v₀⟩ := p
    by_cases hk : k₀ = k
    · subst hk
      simp [dictDel] at h
      subst h
      exact List.sublist_cons_self _ _
    · simp [dictDel, hk] at h
      obtain ⟨r, hr, rfl⟩ := h
      simpa [keysOf] using (ih r hr).cons₂ k₀

theorem nodup_keys_dictDel (m m' : PyDict) (k : String)
    (h : dictDel m k = some m') (hn : (keysOf m).Nodup) :
    (keysOf m').Nodup := (keysOf_dictDel_sublist m m' k h).nodup hn

theorem keysOf_dictSet (m : PyDict) (k : String) (v : PyVal) :
    keysOf (dictSet m k v) =
      if k ∈ keysOf m then keysOf m else keysOf m ++ [k] := by
  induction m with
  | nil => simp [dictSet, keysOf]
  | cons p rest ih =>
    obtain ⟨k₀, v₀⟩ := p
    by_cases hk : k₀ = k
    · subst hk
      simp [dictSet, keysOf_cons, List.mem_cons]
    · simp only [dictSet, if_neg hk, keysOf_cons, ih]
      by_cases hmem : k ∈ keysOf rest
      · simp [hmem, List.mem_cons]
      · simp [hmem, List.mem_cons, Ne.symm hk]

theorem nodup_keys_dictSet (m : PyDict) (k : String) (v : PyVal)
    (hn : (keysOf m).Nodup) : (keysOf (dictSet m k v)).Nodup := by
  rw [keysOf_dictSet]
  by_cases hmem : k ∈ keysOf m
  · simpa [hmem] using hn
  · rw [if_neg hmem, List.nodup_append]
    refine ⟨hn, List.nodup_singleton k, ?_⟩
    intro a ha hb
    rw [List.mem_singleton] at hb
    subst hb
    exact hmem ha

theorem dictGet?_del_self_nodup (m m' : PyDict) (k : String)
    (hn : (keysOf m).Nodup) (h : dictDel m k = some m') :
    dictGet? m' k = Option.none := by
  induction m generalizing m' with
  | nil => simp [dictDel] at h
  | cons p rest ih =>
    obtain ⟨k₀, v₀⟩ := p
    rw [keysOf_cons, List.nodup_cons] at hn
    by_cases hk : k₀ = k
    · subst hk
      simp [dictDel] at h
      subst h
      exact dictGet?_none_of_not_mem_keys _ _ hn.1
    · simp [dictDel, hk] at h
      obtain ⟨r, hr, rfl⟩ := h
      simp [dictGet?, hk, ih r hn.2 hr]

/-! ### Unit conversion (communex/balance.py is not under src/) -/

/-- Modelled from the spec: `from_nano` (communex/balance.py, not under
src/) divides raw integer ledger units by the fixed 1e9 scale. -/
def from_nano (amount : Int) : Rat := (amount : Rat) / 1000000000

/-- Modelled from the spec: `from_horus` (communex/balance.py, not under
src/) divides raw emission units by a tempo-dependent scale factor; with
tempo 0 the rational division yields the defined sentinel 0. -/
def from_horus (amount : Int) (tempo : Int) : Rat :=
  (amount : Rat) / (1000000000 * (tempo : Rat))

/-- Model of Python `round(x, n)` to `n` decimal places on exact
rationals (Python rounds the binary float half-to-even; the claims never
exercise a half-way case). -/
def pyRound (x : Rat) (n : Nat) : Rat :=
  ((round (x * (10 ^ n : Rat)) : Int) : Rat) / (10 ^ n : Rat)

/-- Mirrors the Python test `d.get(k) is not None`: false both when the
key is absent and when its value is `None`. -/
def isNotNone (o : Option PyVal) : Bool :=
  match o with
  | some v => !v.isNone
  | Option.none => false

/-! ### The record transformer (`transform_module_into`, lines 186-214) -/

/-- `for key in to_exclude: del module[key]` (lines 198-199): sequential
deletion; a missing key raises `KeyError`. -/
def delAll : PyDict → List String → Except PyErr PyDict
  | m, [] => Except.ok m
  | m, k :: ks =>
    match dictDel m k with
    | some m' => delAll m' ks
    | Option.none => Except.error (PyErr.keyError k)

theorem dictGet?_delAll_notin (ks : List String) (m m' : PyDict)
    (k : String) (h : delAll m ks = Except.ok m') (hk : k ∉ ks) :
    dictGet? m' k = dictGet? m k := by
  induction ks generalizing m with
  | nil =>
    simp [delAll] at h
    subst h
    rfl
  | cons k₀ rest ih =>
    rw [List.mem_cons] at hk
    push_neg at hk
    rw [delAll] at h
    cases hdel : dictDel m k₀ with
    | none => rw [hdel] at h; cases h
    | some m₁ =>
      rw [hdel] at h
      rw [ih m₁ h hk.2, dictGet?_del_ne m m₁ k₀ k hdel (Ne.symm hk.1)]

theorem nodup_keys_delAll (ks : List String) (m m' : PyDict)
    (h : delAll m ks = Except.ok m') (hn : (keysOf m).Nodup) :
    (keysOf m').Nodup := by
  induction ks generalizing m with
  | nil =>
    simp [delAll] at h
    subst h
    exact hn
  | cons k₀ rest ih =>
    rw [delAll] at h
    cases hdel : dictDel m k₀ with
    | none => rw [hdel] at h; cases h
    | some m₁ =>
      rw [hdel] at h
      exact ih m₁ h (nodup_keys_dictDel m m₁ k₀ hdel hn)

/-- The loop body of `transform_module_into` (lines 194-212), acting on
the per-record copy `module = mod.copy()`: add `in_immunity` computed
from `regblock`, delete the excluded keys, convert `stake` (2-decimal
rounded nano) and `emission` (4-decimal rounded horus) in place, convert
a present non-null `balance` via `from_nano`, and delete the `balance`
key otherwise (a `KeyError` when the key is absent altogether).  Numeric
fields are integers per the data-model invariant; non-integer numeric
content is modelled as a `TypeError`. -/
def transform_one (to_exclude : List String)
    (last_block immunity_period tempo : Int) (mod : PyDict) :
    Except PyErr PyDict :=
  match getItem mod "regblock" with
  | Except.error e => Except.error e
  | Except.ok rb =>
    match rb.asInt? with
    | Option.none => Except.error PyErr.typeError
    | some module_regblock =>
      let m1 := dictSet mod "in_immunity"
        (PyVal.bool (decide (module_regblock + immunity_period > last_block)))
      match delAll m1 to_exclude with
      | Except.error e => Except.error e
      | Except.ok m2 =>
        match getItem m2 "stake" with
        | Except.error e => Except.error e
        | Except.ok sv =>
          match sv.asInt? with
          | Option.none => Except.error PyErr.typeError
          | some stake =>
            let m3 := dictSet m2 "stake"
              (PyVal.rat (pyRound (from_nano stake) 2))
            match getItem m3 "emission" with
            | Except.error e => Except.error e
            | Except.ok ev =>
              match ev.asInt? with
              | Option.none => Except.error PyErr.typeError
              | some emission =>
                let m4 := dictSet m3 "emission"
                  (PyVal.rat (pyRound (from_horus emission tempo) 4))
                if isNotNone (dictGet? m4 "balance") then
                  match getItem m4 "balance" with
                  | Except.error e => Except.error e
                  | Except.ok bv =>
                    match bv.asInt? with
                    | Option.none => Except.error PyErr.typeError
                    | some b =>
                      Except.ok (dictSet m4 "balance"
                        (PyVal.rat (from_nano b)))
                else
                  match dictDel m4 "balance" with
                  | some m5 => Except.ok m5
                  | Option.none => Except.error (PyErr.keyError "balance")

/-- `transform_module_into` (lines 186-214): transforms each record of
the batch independently, in order, propagating the first error. -/
def transform_module_into (to_exclude : List String)
    (last_block immunity_period : Int) (modules : List PyDict)
    (tempo : Int) : Except PyErr (List PyDict) :=
  match modules with
  | [] => Except.ok []
  | m :: ms =>
    match transform_one to_exclude last_block immunity_period tempo m with
    | Except.error e => Except.error e
    | Except.ok m' =>
      match transform_module_into to_exclude last_block immunity_period
          ms tempo with
      | Except.error e => Except.error e
      | Except.ok ms' => Except.ok (m' :: ms')

theorem getItem_ok_iff (m : PyDict) (k : String) (v : PyVal) :
    getItem m k = Except.ok v ↔ dictGet? m k = some v := by
  unfold getItem
  cases dictGet? m k <;> simp

theorem asInt?_eq_some (v : PyVal) (n : Int) :
    v.asInt? = some n ↔ v = PyVal.int n := by
  cases v <;> simp [PyVal.asInt?]

/-- Inversion of a successful run of the loop body: names every
intermediate dictionary and field value the body produced. -/
theorem transform_one_ok_inv (te : List String) (lb ip tp : Int)
    (mod out : PyDict)
    (h : transform_one te lb ip tp mod = Except.ok out) :
    ∃ r m2 s e,
      dictGet? mod "regblock" = some (PyVal.int r) ∧
      delAll (dictSet mod "in_immunity"
        (PyVal.bool (decide (r + ip > lb)))) te = Except.ok m2 ∧
      dictGet? m2 "stake" = some (PyVal.int s) ∧
      dictGet? (dictSet m2 "stake" (PyVal.rat (pyRound (from_nano s) 2)))
        "emission" = some (PyVal.int e) ∧
      ((∃ b,
        dictGet? (dictSet
          (dictSet m2 "stake" (PyVal.rat (pyRound (from_nano s) 2)))
          "emission" (PyVal.rat (pyRound (from_horus e tp) 4)))
            "balance" = some (PyVal.int b) ∧
        out = dictSet (dictSet
          (dictSet m2 "stake" (PyVal.rat (pyRound (from_nano s) 2)))
          "emission" (PyVal.rat (pyRound (from_horus e tp) 4)))
          "balance" (PyVal.rat (from_nano b))) ∨
      (isNotNone (dictGet? (dictSet
          (dictSet m2 "stake" (PyVal.rat (pyRound (from_nano s) 2)))
          "emission" (PyVal.rat (pyRound (from_horus e tp) 4)))
            "balance") = false ∧
        dictDel (dictSet
          (dictSet m2 "stake" (PyVal.rat (pyRound (from_nano s) 2)))
          "emission" (PyVal.rat (pyRound (from_horus e tp) 4)))
          "balance" = some out)) := by
  unfold transform_one at h
  split at h
  · cases h
  · rename_i rb hrb
    split at h
    · cases h
    · rename_i r hr
      rw [asInt?_eq_some] at hr
      subst hr
      dsimp only [] at h
      split at h
      · cases h
      · rename_i m2 hm2
        split at h
        · cases h
        · rename_i sv hsv
          split at h
          · cases h
          · rename_i s hs
            rw [asInt?_eq_some] at hs
            subst hs
            split at h
            · cases h
            · rename_i ev hev
              split at h
              · cases h
              · rename_i e he
                rw [asInt?_eq_some] at he
                subst he
                rw [getItem_ok_iff] at hrb hsv hev
                split at h
                · rename_i hcond
                  split at h
                  · cases h
                  · rename_i bv hbv
                    split at h
                    · cases h
                    · rename_i b hb
                      rw [asInt?_eq_some] at hb
                      subst hb
                      rw [getItem_ok_iff] at hbv
                      cases h
                      exact ⟨r, m2, s, e, hrb, hm2, hsv, hev,
                        Or.inl ⟨b, hbv, rfl⟩⟩
                · rename_i hcond
                  split at h
                  · rename_i m5 hm5
                    cases h
                    exact ⟨r, m2, s, e, hrb, hm2, hsv, hev,
                      Or.inr ⟨Bool.of_not_eq_true hcond, hm5⟩⟩
                  · cases h

/-- Pointwise reading of a successful batch transform. -/
theorem transform_module_into_ok_pointwise (te : List String)
    (lb ip tp : Int) (mods outs : List PyDict)
    (h : transform_module_into te lb ip mods tp = Except.ok outs) :
    ∀ i m, mods.get? i = some m →
      ∃ out, transform_one te lb ip tp m = Except.ok out ∧
        outs.get? i = some out := by
  induction mods generalizing outs with
  | nil => intro i m hm; simp at hm
  | cons m₀ ms ih =>
    rw [transform_module_into] at h
    cases h₀ : transform_one te lb ip tp m₀ with
    | error e => rw [h₀] at h; cases h
    | ok m₀' =>
      rw [h₀] at h
      cases hrec : transform_module_into te lb ip ms tp with
      | error e => rw [hrec] at h; cases h
      | ok ms' =>
        rw [hrec] at h
        cases h
        intro i m hm
        cases i with
        | zero =>
          simp at hm
          subst hm
          exact ⟨m₀', h₀, rfl⟩
        | succ j =>
          simp only [List.get?] at hm ⊢
          exact ih ms' hrec j m hm

/-- C3: for every record a successful `transform_module_into` run
transforms, when the record's `regblock` field holds the integer `r` and
`in_immunity` is not among the excluded keys, the corresponding output
record's `in_immunity` field is exactly the boolean
`r + immunity_period > last_block`. -/
theorem c3_in_immunity_formula (te : List String) (lb ip tp r : Int)
    (mods outs : List PyDict) (i : Nat) (mod out : PyDict)
    (h : transform_module_into te lb ip mods tp = Except.ok outs)
    (hmod : mods.get? i = some mod) (hout : outs.get? i = some out)
    (hreg : dictGet? mod "regblock" = some (PyVal.int r))
    (hni : "in_immunity" ∉ te) :
    dictGet? out "in_immunity" =
      some (PyVal.bool (decide (r + ip > lb))) := by
  obtain ⟨out', hone, hout'⟩ :=
    transform_module_into_ok_pointwise te lb ip tp mods outs h i mod hmod
  have heq : out = out' := by
    rw [hout] at hout'
    exact Option.some.inj hout'
  subst heq
  obtain ⟨r', m2, s, e, hrb, hm2, hsv, hev, hlast⟩ :=
    transform_one_ok_inv te lb ip tp mod out hone
  rw [hreg] at hrb
  cases hrb
  have h1 : dictGet? m2 "in_immunity" =
      some (PyVal.bool (decide (r + ip > lb))) := by
    rw [dictGet?_delAll_notin te _ m2 "in_immunity" hm2 hni]
    exact dictGet?_set_self mod "in_immunity" _
  have h2 : dictGet? (dictSet (dictSet m2 "stake"
      (PyVal.rat (pyRound (from_nano s) 2))) "emission"
      (PyVal.rat (pyRound (from_horus e tp) 4))) "in_immunity" =
      some (PyVal.bool (decide (r + ip > lb))) := by
    rw [dictGet?_set_ne _ "emission" "in_immunity" _ (by decide),
      dictGet?_set_ne _ "stake" "in_immunity" _ (by decide)]
    exact h1
  rcases hlast with ⟨b, _, rfl⟩ | ⟨_, hdel⟩
  · rw [dictGet?_set_ne _ "balance" "in_immunity" _ (by decide)]
    exact h2
  · rw [dictGet?_del_ne _ out "balance" "in_immunity" hdel (by decide)]
    exact h2

/-- Witness for C3: the record with regblock 100 under immunity period
50 is in immunity at block 140 and out of it at block 200. -/
theorem c3_in_immunity_formula_witness :
    dictGet? [("stake", PyVal.rat (pyRound (from_nano 0) 2)),
      ("emission", PyVal.rat (pyRound (from_horus 0 1) 4)),
      ("in_immunity", PyVal.bool true)] "in_immunity" =
      some (PyVal.bool true) ∧
    dictGet? [("stake", PyVal.rat (pyRound (from_nano 0) 2)),
      ("emission", PyVal.rat (pyRound (from_horus 0 1) 4)),
      ("in_immunity", PyVal.bool false)] "in_immunity" =
      some (PyVal.bool false) :=
  ⟨c3_in_immunity_formula ["regblock"] 140 50 1 100
      [[("regblock", PyVal.int 100), ("stake", PyVal.int 0),
        ("emission", PyVal.int 0), ("balance", PyVal.none)]]
      [[("stake", PyVal.rat (pyRound (from_nano 0) 2)),
        ("emission", PyVal.rat (pyRound (from_horus 0 1) 4)),
        ("in_immunity", PyVal.bool true)]]
      0 _ _ rfl rfl rfl rfl (by decide),
    c3_in_immunity_formula ["regblock"] 200 50 1 100
      [[("regblock", PyVal.int 100), ("stake", PyVal.int 0),
        ("emission", PyVal.int 0), ("balance", PyVal.none)]]
      [[("stake", PyVal.rat (pyRound (from_nano 0) 2)),
        ("emission", PyVal.rat (pyRound (from_horus 0 1) 4)),
        ("in_immunity", PyVal.bool false)]]
      0 _ _ rfl rfl rfl rfl (by decide)⟩

/-- Counterexample to C4 as stated: an input record with no `balance`
key at all does not yield a DisplayRecord — the transformer raises
`KeyError "balance"`, because the else-branch `del module["balance"]`
(line 211) fires on a key that is not there. -/
theorem c4_counterexample :
    transform_module_into [] 0 0
      [[("regblock", PyVal.int 1), ("stake", PyVal.int 0),
        ("emission", PyVal.int 0)]] 1 =
      Except.error (PyErr.keyError "balance") := rfl

/-- C4 (amended): for a record whose `balance` key is present, if its
value is null the output DisplayRecord carries no `balance` key at all,
and if its value is an integer the output `balance` is its `from_nano`
conversion.  (A record lacking the `balance` key altogether makes the
transformer fail with `KeyError` instead of yielding a record.) -/
theorem c4_balance_handling (te : List String) (lb ip tp : Int)
    (mods outs : List PyDict) (i : Nat) (mod out : PyDict) (v : PyVal)
    (h : transform_module_into te lb ip mods tp = Except.ok outs)
    (hmod : mods.get? i = some mod) (hout : outs.get? i = some out)
    (hbal : dictGet? mod "balance" = some v)
    (hnb : "balance" ∉ te)
    (hnodup : (keysOf mod).Nodup) :
    (v = PyVal.none → dictGet? out "balance" = Option.none) ∧
    (∀ b : Int, v = PyVal.int b →
      dictGet? out "balance" = some (PyVal.rat (from_nano b))) := by
  obtain ⟨out', hone, hout'⟩ :=
    transform_module_into_ok_pointwise te lb ip tp mods outs h i mod hmod
  have heq : out = out' := by
    rw [hout] at hout'
    exact Option.some.inj hout'
  subst heq
  obtain ⟨r', m2, s, e, hrb, hm2, hsv, hev, hlast⟩ :=
    transform_one_ok_inv te lb ip tp mod out hone
  have hm4bal : dictGet? (dictSet (dictSet m2 "stake"
      (PyVal.rat (pyRound (from_nano s) 2))) "emission"
      (PyVal.rat (pyRound (from_horus e tp) 4))) "balance" = some v := by
    rw [dictGet?_set_ne _ "emission" "balance" _ (by decide),
      dictGet?_set_ne _ "stake" "balance" _ (by decide),
      dictGet?_delAll_notin te _ m2 "balance" hm2 hnb,
      dictGet?_set_ne _ "in_immunity" "balance" _ (by decide)]
    exact hbal
  have hm4nodup : (keysOf (dictSet (dictSet m2 "stake"
      (PyVal.rat (pyRound (from_nano s) 2))) "emission"
      (PyVal.rat (pyRound (from_horus e tp) 4)))).Nodup :=
    nodup_keys_dictSet _ _ _ (nodup_keys_dictSet _ _ _
      (nodup_keys_delAll te _ m2 hm2 (nodup_keys_dictSet _ _ _ hnodup)))
  constructor
  · intro hv
    subst hv
    rcases hlast with ⟨b, hbv, _⟩ | ⟨_, hdel⟩
    · rw [hm4bal] at hbv
      cases hbv
    · exact dictGet?_del_self_nodup _ out "balance" hm4nodup hdel
  · intro b hv
    subst hv
    rcases hlast with ⟨b', hbv, rfl⟩ | ⟨hfalse, _⟩
    · rw [hm4bal] at hbv
      cases hbv
      exact dictGet?_set_self _ "balance" _
    · rw [hm4bal] at hfalse
      simp [isNotNone, PyVal.isNone] at hfalse

/-- Witness for C4 (amended): a null-valued `balance` key disappears
from the output, and an integer-valued one is converted via
`from_nano`. -/
theorem c4_balance_handling_witness :
    dictGet? [("regblock", PyVal.int 0),
      ("stake", PyVal.rat (pyRound (from_nano 0) 2)),
      ("emission", PyVal.rat (pyRound (from_horus 0 1) 4)),
      ("in_immunity", PyVal.bool false)] "balance" = Option.none ∧
    dictGet? [("regblock", PyVal.int 0),
      ("stake", PyVal.rat (pyRound (from_nano 0) 2)),
      ("emission", PyVal.rat (pyRound (from_horus 0 1) 4)),
      ("balance", PyVal.rat (from_nano 5)),
      ("in_immunity", PyVal.bool false)] "balance" =
      some (PyVal.rat (from_nano 5)) :=
  ⟨(c4_balance_handling [] 0 0 1
      [[("regblock", PyVal.int 0), ("stake", PyVal.int 0),
        ("emission", PyVal.int 0), ("balance", PyVal.none)]]
      [[("regblock", PyVal.int 0),
        ("stake", PyVal.rat (pyRound (from_nano 0) 2)),
        ("emission", PyVal.rat (pyRound (from_horus 0 1) 4)),
        ("in_immunity", PyVal.bool false)]]
      0 _ _ PyVal.none rfl rfl rfl rfl (by decide) (by decide)).1 rfl,
    (c4_balance_handling [] 0 0 1
      [[("regblock", PyVal.int 0), ("stake", PyVal.int 0),
        ("emission", PyVal.int 0), ("balance", PyVal.int 5)]]
      [[("regblock", PyVal.int 0),
        ("stake", PyVal.rat (pyRound (from_nano 0) 2)),
        ("emission", PyVal.rat (pyRound (from_horus 0 1) 4)),
        ("balance", PyVal.rat (from_nano 5)),
        ("in_immunity", PyVal.bool false)]]
      0 _ _ (PyVal.int 5) rfl rfl rfl rfl (by decide) (by decide)).2 5 rfl⟩

/-- Counterexample to C5 as stated: a non-empty batch whose two records
have differing key sets after exclusion (the second carries an extra
key) is transformed without any error, and the mismatched key sets
survive into the output — no `InvariantViolation` (or any failure)
occurs. -/
theorem c5_counterexample :
    transform_module_into [] 0 0
      [[("regblock", PyVal.int 0), ("stake", PyVal.int 0),
        ("emission", PyVal.int 0), ("balance", PyVal.none)],
       [("regblock", PyVal.int 0), ("stake", PyVal.int 0),
        ("emission", PyVal.int 0), ("balance", PyVal.none),
        ("extra", PyVal.int 7)]] 1 =
      Except.ok
        [[("regblock", PyVal.int 0),
          ("stake", PyVal.rat (pyRound (from_nano 0) 2)),
          ("emission", PyVal.rat (pyRound (from_horus 0 1) 4)),
          ("in_immunity", PyVal.bool false)],
         [("regblock", PyVal.int 0),
          ("stake", PyVal.rat (pyRound (from_nano 0) 2)),
          ("emission", PyVal.rat (pyRound (from_horus 0 1) 4)),
          ("extra", PyVal.int 7),
          ("in_immunity", PyVal.bool false)]] ∧
    keysOf [("regblock", PyVal.int 0),
        ("stake", PyVal.rat (pyRound (from_nano 0) 2)),
        ("emission", PyVal.rat (pyRound (from_horus 0 1) 4)),
        ("in_immunity", PyVal.bool false)] ≠
      keysOf [("regblock", PyVal.int 0),
        ("stake", PyVal.rat (pyRound (from_nano 0) 2)),
        ("emission", PyVal.rat (pyRound (from_horus 0 1) 4)),
        ("extra", PyVal.int 7),
        ("in_immunity", PyVal.bool false)] := by
  refine ⟨rfl, ?_⟩
  intro hcon
  simp [keysOf] at hcon

/-- C5 (amended): `transform_module_into` performs no cross-record
schema comparison at all — whenever every record of the batch
transforms successfully on its own, the whole batch succeeds with one
output per record, regardless of whether the records' key sets agree
after exclusion. -/
theorem c5_no_schema_check (te : List String) (lb ip tp : Int)
    (mods : List PyDict)
    (h : ∀ m ∈ mods, ∃ out,
      transform_one te lb ip tp m = Except.ok out) :
    ∃ outs, transform_module_into te lb ip mods tp = Except.ok outs ∧
      outs.length = mods.length := by
  induction mods with
  | nil => exact ⟨[], rfl, rfl⟩
  | cons m ms ih =>
    obtain ⟨out, hout⟩ := h m (List.mem_cons_self m ms)
    obtain ⟨outs, houts, hlen⟩ :=
      ih (fun m' hm' => h m' (List.mem_cons_of_mem m hm'))
    refine ⟨out :: outs, ?_, by simp [hlen]⟩
    rw [transform_module_into, hout, houts]

/-- Witness for C5 (amended): the mismatched two-record batch of the
counterexample satisfies the per-record condition, so the batch
transforms successfully into two records. -/
theorem c5_no_schema_check_witness :
    ∃ outs, transform_module_into [] 0 0
      [[("regblock", PyVal.int 0), ("stake", PyVal.int 0),
        ("emission", PyVal.int 0), ("balance", PyVal.none)],
       [("regblock", PyVal.int 0), ("stake", PyVal.int 0),
        ("emission", PyVal.int 0), ("balance", PyVal.none),
        ("extra", PyVal.int 7)]] 1 = Except.ok outs ∧
      outs.length = 2 :=
  c5_no_schema_check [] 0 0 1 _ (by
    intro m hm
    rcases List.mem_cons.mp hm with rfl | hm
    · exact ⟨_, rfl⟩
    · rcases List.mem_cons.mp hm with rfl | hm
      · exact ⟨_, rfl⟩
      · cases hm)

/-! ### Heap-level view of the transformer (for the mutation claim)

`transform_module_into` receives a list of references to caller-owned
dictionaries.  The loop body first takes `module = mod.copy()` (line
194) — a fresh object — and every subsequent mutation (`module[...] =`,
`del module[...]`) targets that fresh object only, which `transform_one`
captures as a value computation on the copy.  The heap-level function
below makes the object identities explicit: the heap is the list of all
dict objects, records are references (indices) into it, and each
iteration allocates the transformed copy as a new object at the end of
the heap. -/

abbrev Heap := List PyDict

/-- `transform_module_into`, at the level of object references: reads
the record object, runs the loop body on the fresh copy, and allocates
the result as a new heap object; pre-existing objects are never
written. -/
def transform_module_into_heap (to_exclude : List String)
    (last_block immunity_period tempo : Int) :
    List Nat → Heap → Heap × Except PyErr (List Nat)
  | [], h => (h, Except.ok [])
  | r :: rs, h =>
    match h.get? r with
    | Option.none => (h, Except.error PyErr.indexError)
    | some mod =>
      match transform_one to_exclude last_block immunity_period tempo
          mod with
      | Except.error e => (h, Except.error e)
      | Except.ok module =>
        let res := transform_module_into_heap to_exclude last_block
          immunity_period tempo rs (h ++ [module])
        match res.2 with
        | Except.ok outs => (res.1, Except.ok (h.length :: outs))
        | Except.error e => (res.1, Except.error e)

theorem list_get?_append_left {α : Type} (l₁ l₂ : List α) (n : Nat)
    (h : n < l₁.length) : (l₁ ++ l₂).get? n = l₁.get? n := by
  induction l₁ generalizing n with
  | nil => simp at h
  | cons a tl ih =>
    cases n with
    | zero => rfl
    | succ m =>
      simp only [List.length_cons, Nat.succ_lt_succ_iff] at h
      simpa using ih m h

/-- C10: the transformer never mutates its input: every dictionary
object that existed before the call — in particular every input record,
with its top-level key set and values — is unchanged in the final heap,
whether the run succeeds or fails. -/
theorem c10_transform_no_mutation (te : List String)
    (lb ip tp : Int) (refs : List Nat) (h : Heap) (r : Nat)
    (hr : r < h.length) :
    (transform_module_into_heap te lb ip tp refs h).1.get? r =
      h.get? r := by
  induction refs generalizing h with
  | nil => rfl
  | cons r₀ rs ih =>
    rw [transform_module_into_heap]
    cases hget : h.get? r₀ with
    | none => rfl
    | some mod =>
      cases hone : transform_one te lb ip tp mod with
      | error e =>
        simp only [hone]
      | ok module =>
        simp only [hone]
        have hlen : r < (h ++ [module]).length := by
          simp only [List.length_append, List.length_singleton]
          omega
        have hstep := ih (h ++ [module]) hlen
        rw [list_get?_append_left h [module] r hr] at hstep
        cases hres : (transform_module_into_heap te lb ip tp rs
            (h ++ [module])).2 <;>
          simp only [hres] <;> exact hstep

/-- Witness for C10: a one-record heap is unchanged by a transforming
call that reads it. -/
theorem c10_transform_no_mutation_witness :
    (transform_module_into_heap [] 0 0 1 [0]
        [[("regblock", PyVal.int 0), ("stake", PyVal.int 0),
          ("emission", PyVal.int 0), ("balance", PyVal.none)]]).1.get? 0 =
      some [("regblock", PyVal.int 0), ("stake", PyVal.int 0),
        ("emission", PyVal.int 0), ("balance", PyVal.none)] := by
  rw [c10_transform_no_mutation [] 0 0 1 [0] _ 0 (by decide)]
  rfl

/-! ### The zipped renderer (`print_table_standardize`, lines 170-183) -/

/-- A rendered table: one column per key, one row per index. -/
structure RTable where
  columns : List String
  rows : List (List PyVal)

/-- The length of the shortest of the sequences (0 for no sequences):
the number of tuples Python `zip` produces. -/
def minLen : List (List PyVal) → Nat
  | [] => 0
  | [l] => l.length
  | l :: rest => min l.length (minLen rest)

/-- Model of `zip(*rows)` (line 179): transposes the value sequences,
silently stopping at the shortest one. -/
def pyZip (cols : List (List PyVal)) : List (List PyVal) :=
  match cols with
  | [] => []
  | _ =>
    (List.range (minLen cols)).map
      (fun i => cols.map (fun l => (l.get? i).getD PyVal.none))

/-- `print_table_standardize` (lines 170-183): one column per key of the
input mapping, and the zipped value sequences as rows. -/
def print_table_standardize (result : List (String × List PyVal)) :
    RTable :=
  { columns := result.map Prod.fst
    rows := pyZip (result.map Prod.snd) }

/-- Counterexample to C6 as stated: on sequences of lengths 2 and 3 the
renderer does not fail at all — it produces a table truncated to the 2
complete tuples, exactly what the claim says must not happen. -/
theorem c6_counterexample :
    print_table_standardize
      [("x", [PyVal.int 1, PyVal.int 2]),
       ("y", [PyVal.int 3, PyVal.int 4, PyVal.int 5])] =
      { columns := ["x", "y"],
        rows := [[PyVal.int 1, PyVal.int 3],
                 [PyVal.int 2, PyVal.int 4]] } := rfl

/-- C6 (amended): `print_table_standardize` never fails on unequal
sequence lengths; it produces one column per key and exactly
`min`-of-the-lengths rows (Python `zip` truncation), so the mismatched
example renders as a two-row table instead of failing. -/
theorem c6_zip_truncates :
    (∀ result : List (String × List PyVal),
      (print_table_standardize result).columns = result.map Prod.fst ∧
      (print_table_standardize result).rows.length =
        minLen (result.map Prod.snd)) ∧
    (print_table_standardize
      [("x", [PyVal.int 1, PyVal.int 2]),
       ("y", [PyVal.int 3, PyVal.int 4, PyVal.int 5])]).rows.length = 2 := by
  constructor
  · intro result
    refine ⟨rfl, ?_⟩
    show (pyZip (result.map Prod.snd)).length = _
    unfold pyZip
    cases hc : result.map Prod.snd with
    | nil => simp [minLen]
    | cons c cs => simp
  · rfl

/-! ### The module table renderer (`print_module_info`, lines 217-276) -/

/-- Modelled from the spec: the opaque Connection service interface
(sec. 6) with `get_block`, `get_immunity_period` and `get_tempo`. -/
structure BlockHeader where
  number : Int

structure BlockInfo where
  header : BlockHeader

structure CommuneClient where
  get_block : Option BlockInfo
  get_immunity_period : Int → Int
  get_tempo : Int → Int

/-- Display stand-in for Python `str(val)` in row cells; rational
display values are rendered through `Rat`'s formatter (no claim depends
on the exact text of a row cell). -/
def pyStr : PyVal → String
  | PyVal.int n => toString n
  | PyVal.rat q => toString q
  | PyVal.bool b => if b then "True" else "False"
  | PyVal.str s => s
  | PyVal.none => "None"
  | PyVal.dict _ => "dict"

/-- The table artifact `print_module_info` emits. -/
structure ModTable where
  title : Option String
  columns : List String
  rows : List (List String)
  caption : String
deriving DecidableEq

/-- The caption accumulation of lines 260-266: `total_stake +=
mod["stake"]`, and `total_balance += mod["balance"]` when balance is
present and not null.  The accumulator is the pair
(total_stake, total_balance). -/
def caption_totals : List PyDict → Rat × Rat → Except PyErr (Rat × Rat)
  | [], acc => Except.ok acc
  | m :: ms, acc =>
    match getItem m "stake" with
    | Except.error e => Except.error e
    | Except.ok sv =>
      match sv.asNum? with
      | Option.none => Except.error PyErr.typeError
      | some s =>
        if isNotNone (dictGet? m "balance") then
          match getItem m "balance" with
          | Except.error e => Except.error e
          | Except.ok bv =>
            match bv.asNum? with
            | Option.none => Except.error PyErr.typeError
            | some b => caption_totals ms (acc.1 + s, acc.2 + b)
        else caption_totals ms (acc.1 + s, acc.2)

/-- `print_module_info` (lines 217-276): on a non-empty batch, reads
the current block (a missing block is a `ValueError`), fetches immunity
period and tempo, transforms the batch with the fixed exclusion list,
builds one column per key of the first transformed record, one
stringified row per record, and the caption
`"total balance: " ++ (total_balance + total_stake) ++ "J"`.
On an empty batch it renders nothing. -/
def print_module_info (client : CommuneClient) (modules : List PyDict)
    (netuid : Int) (title : Option String) :
    Except PyErr (Option ModTable) :=
  if modules.isEmpty then Except.ok Option.none
  else
    match client.get_block with
    | Option.none => Except.error (PyErr.valueError "Could not get block info")
    | some block =>
      let last_block := block.header.number
      let immunity_period := client.get_immunity_period netuid
      let tempo := client.get_tempo netuid
      let to_exclude := ["stake_from", "last_update", "regblock"]
      match transform_module_into to_exclude last_block immunity_period
          modules tempo with
      | Except.error e => Except.error e
      | Except.ok tranformed_modules =>
        match tranformed_modules.head? with
        | Option.none => Except.error PyErr.indexError
        | some sample_mod =>
          match caption_totals tranformed_modules (0, 0) with
          | Except.error e => Except.error e
          | Except.ok totals =>
            Except.ok (some
              { title := title
                columns := sample_mod.map Prod.fst
                rows := tranformed_modules.map
                  (fun m => m.map (fun kv => pyStr kv.2))
                caption := "total balance: " ++
                  toString (totals.2 + totals.1) ++ "J" })

/-- Claim-side reading of a numeric field for the caption sum: the
field's value when present and numeric, else 0. -/
def specNumOf (v : Option PyVal) : Rat :=
  match v with
  | some (PyVal.int n) => (n : Rat)
  | some (PyVal.rat q) => q
  | _ => 0

/-- Claim-side total: the sum of the records' stake values. -/
def spec_sum_stake (mods : List PyDict) : Rat :=
  (mods.map (fun m => specNumOf (dictGet? m "stake"))).sum

/-- Claim-side total: the sum of the present balance values, an absent
(or null) balance contributing 0. -/
def spec_sum_balance (mods : List PyDict) : Rat :=
  (mods.map (fun m => specNumOf (dictGet? m "balance"))).sum

theorem caption_totals_ok_sums (mods : List PyDict) (acc : Rat × Rat)
    (totals : Rat × Rat)
    (h : caption_totals mods acc = Except.ok totals) :
    totals.1 = acc.1 + spec_sum_stake mods ∧
    totals.2 = acc.2 + spec_sum_balance mods := by
  induction mods generalizing acc with
  | nil =>
    simp [caption_totals] at h
    simp [← h, spec_sum_stake, spec_sum_balance]
  | cons m ms ih =>
    rw [caption_totals] at h
    cases hsv : getItem m "stake" with
    | error e => rw [hsv] at h; cases h
    | ok sv =>
      simp only [hsv] at h
      cases hs : sv.asNum? with
      | none => simp only [hs] at h; cases h
      | some s =>
        simp only [hs] at h
        rw [getItem_ok_iff] at hsv
        have hstake : specNumOf (dictGet? m "stake") = s := by
          rw [hsv]
          cases sv <;> simp [PyVal.asNum?] at hs <;>
            simp [specNumOf, hs]
        by_cases hb : isNotNone (dictGet? m "balance") = true
        · rw [if_pos hb] at h
          cases hbv : getItem m "balance" with
          | error e => rw [hbv] at h; cases h
          | ok bv =>
            simp only [hbv] at h
            cases hbn : bv.asNum? with
            | none => simp only [hbn] at h; cases h
            | some b =>
              simp only [hbn] at h
              rw [getItem_ok_iff] at hbv
              have hbal : specNumOf (dictGet? m "balance") = b := by
                rw [hbv]
                cases bv <;> simp [PyVal.asNum?] at hbn <;>
                  simp [specNumOf, hbn]
              obtain ⟨h1, h2⟩ := ih (acc.1 + s, acc.2 + b) h
              constructor
              · rw [h1]
                simp [spec_sum_stake, hstake]
                ring
              · rw [h2]
                simp [spec_sum_balance, hbal]
                ring
        · rw [if_neg hb] at h
          have hbal : specNumOf (dictGet? m "balance") = 0 := by
            cases hbv : dictGet? m "balance" with
            | none => simp [specNumOf]
            | some v =>
              rw [hbv] at hb
              cases v <;> simp [isNotNone, PyVal.isNone] at hb
              simp [specNumOf]
          obtain ⟨h1, h2⟩ := ih (acc.1 + s, acc.2) h
          constructor
          · rw [h1]
            simp [spec_sum_stake, hstake]
            ring
          · rw [h2]
            simp [spec_sum_balance, hbal]

/-- C8: whenever `print_module_info` renders a (necessarily non-empty)
batch successfully, the emitted caption is the string
`"total balance: "` followed by the sum of the transformed records'
stake values plus the sum of their present balance values (an absent or
null balance contributing 0), followed by the unit suffix `"J"`. -/
theorem c8_caption_total (client : CommuneClient)
    (modules : List PyDict) (netuid : Int) (title : Option String)
    (t : ModTable) (lb : Int) (tmods : List PyDict)
    (hb : client.get_block = some ⟨⟨lb⟩⟩)
    (ht : transform_module_into ["stake_from", "last_update", "regblock"]
      lb (client.get_immunity_period netuid) modules
      (client.get_tempo netuid) = Except.ok tmods)
    (h : print_module_info client modules netuid title =
      Except.ok (some t)) :
    t.caption = "total balance: " ++
      toString (spec_sum_stake tmods + spec_sum_balance tmods) ++
      "J" := by
  unfold print_module_info at h
  by_cases hemp : modules.isEmpty
  · rw [if_pos hemp] at h
    cases h
  · rw [if_neg hemp] at h
    simp only [hb] at h
    simp only [ht] at h
    cases hhd : tmods.head? with
    | none =>
      simp only [hhd] at h
      cases h
    | some sample_mod =>
      simp only [hhd] at h
      cases hct : caption_totals tmods (0, 0) with
      | error e => simp only [hct] at h; cases h
      | ok totals =>
        simp only [hct] at h
        obtain ⟨h1, h2⟩ := caption_totals_ok_sums tmods (0, 0) totals hct
        simp only [Except.ok.injEq, Option.some.injEq] at h
        rw [← h]
        show "total balance: " ++ toString (totals.2 + totals.1) ++ "J" = _
        rw [h1, h2]
        norm_num
        rw [add_comm]

/-- Witness for C8: a single record with 1 nano-unit stake and a null
balance renders with caption total equal to its stake sum. -/
theorem c8_caption_total_witness :
    (ModTable.mk Option.none ["name", "stake", "emission", "in_immunity"]
      [["m", toString (pyRound (from_nano 1000000000) 2),
        toString (pyRound (from_horus 0 100) 4), "True"]]
      ("total balance: " ++
        toString ((0 : Rat) +
          ((0 : Rat) + pyRound (from_nano 1000000000) 2)) ++ "J")).caption =
    "total balance: " ++
      toString (spec_sum_stake
          [[("name", PyVal.str "m"),
            ("stake", PyVal.rat (pyRound (from_nano 1000000000) 2)),
            ("emission", PyVal.rat (pyRound (from_horus 0 100) 4)),
            ("in_immunity", PyVal.bool true)]] +
        spec_sum_balance
          [[("name", PyVal.str "m"),
            ("stake", PyVal.rat (pyRound (from_nano 1000000000) 2)),
            ("emission", PyVal.rat (pyRound (from_horus 0 100) 4)),
            ("in_immunity", PyVal.bool true)]]) ++ "J" :=
  c8_caption_total
    ⟨some ⟨⟨140⟩⟩, fun _ => 50, fun _ => 100⟩
    [[("name", PyVal.str "m"), ("regblock", PyVal.int 100),
      ("stake_from", PyVal.dict []), ("last_update", PyVal.int 0),
      ("stake", PyVal.int 1000000000), ("emission", PyVal.int 0),
      ("balance", PyVal.none)]]
    0 Option.none _ 140
    [[("name", PyVal.str "m"),
      ("stake", PyVal.rat (pyRound (from_nano 1000000000) 2)),
      ("emission", PyVal.rat (pyRound (from_horus 0 100) 4)),
      ("in_immunity", PyVal.bool true)]]
    rfl rfl rfl

/-! ### Session context and connection acquisition
(`CustomCtx.com_client`, lines 63-87) -/

/-- Modelled from the spec: `get_node_url` (communex/_common.py, not
under src/) resolves a target node URL from the testnet flag; the
concrete URL text is a placeholder for whatever that module returns. -/
def get_node_url (use_testnet : Bool) : String :=
  if use_testnet then "wss://testnet.api.communeai.net"
  else "wss://api.communeai.net"

/-- The per-invocation CLI context (the `CustomCtx` dataclass, lines
34-61), with the cached connection field; the connection type is
abstract. -/
structure CustomCtx (α : Type) where
  use_json_output : Bool
  use_yes_to_all : Bool
  use_testnet : Bool
  interactive : Bool
  color : Bool
  _com_client : Option α

/-- The outcome of a `com_client()` call: the updated context, the
returned connection or raised error, the number of constructor
invocations, and the progress messages written to the info sink. -/
structure ComResult (α : Type) where
  ctx : CustomCtx α
  result : Except PyErr α
  attempts : Nat
  log : List String

/-- The retry loop of lines 72-82: for each attempt index, report
progress, invoke the constructor (`Option.none` models a constructor
exception), breaking on the first success and reporting the retry
count after each failure. -/
def try_connect {α : Type} (construct : Nat → Option α)
    (node_url : String) : List Nat → Option α × Nat × List String
  | [] => (Option.none, 0, [])
  | current :: rest =>
    let msg1 := "Connecting to node " ++ node_url ++ "..."
    match construct current with
    | some c => (some c, 1, [msg1])
    | Option.none =>
      let msg2 := "Connecting to node " ++ node_url ++ " (" ++
        toString current ++ "/5 retries)..."
      let r := try_connect construct node_url rest
      (r.1, r.2.1 + 1, msg1 :: msg2 :: r.2.2)

/-- `com_client` (lines 63-87): return the cached connection when one
exists; otherwise resolve the node URL from the testnet flag, attempt
construction up to 5 times (swallowing per-attempt failures), cache and
return the first success, and raise
`ConnectionError "Could not connect to any node"` when every attempt
failed (the cached field left unset). -/
def com_client {α : Type} (ctx : CustomCtx α)
    (construct : Nat → Option α) : ComResult α :=
  match ctx._com_client with
  | some c => ⟨ctx, Except.ok c, 0, []⟩
  | Option.none =>
    let node_url := get_node_url ctx.use_testnet
    let r := try_connect construct node_url [1, 2, 3, 4, 5]
    match r.1 with
    | some c =>
      ⟨{ ctx with _com_client := some c }, Except.ok c, r.2.1, r.2.2⟩
    | Option.none =>
      ⟨ctx, Except.error
        (PyErr.connectionError "Could not connect to any node"),
        r.2.1, r.2.2⟩

/-- `sub` occurs as a contiguous substring of `s`. -/
def strContains (s sub : String) : Prop :=
  ∃ pre post, s = pre ++ sub ++ post

theorem try_connect_all_fail {α : Type} (construct : Nat → Option α)
    (node_url : String) (l : List Nat)
    (hfail : ∀ i, construct i = Option.none) :
    (try_connect construct node_url l).1 = Option.none ∧
    (try_connect construct node_url l).2.1 = l.length := by
  induction l with
  | nil => exact ⟨rfl, rfl⟩
  | cons c rest ih =>
    rw [try_connect]
    simp only [hfail c]
    exact ⟨ih.1, by simp [ih.2]⟩

theorem strContains_char {s sub : String} (c : Char)
    (hc : c ∈ sub.data) (h : strContains s sub) : c ∈ s.data := by
  obtain ⟨pre, post, rfl⟩ := h
  simp only [String.data_append, List.mem_append]
  exact Or.inl (Or.inr hc)

/-- C1 (amended): when the context has no cached connection and every
one of the 5 construction attempts fails, `com_client` raises a
`ConnectionError` whose message is the fixed string
"Could not connect to any node" — independent of the target node URL,
which the message therefore does not include. -/
theorem c1_connection_error_message (α : Type) (ctx : CustomCtx α)
    (construct : Nat → Option α)
    (hcache : ctx._com_client = Option.none)
    (hfail : ∀ i, construct i = Option.none) :
    (com_client ctx construct).result = Except.error
      (PyErr.connectionError "Could not connect to any node") ∧
    ¬ strContains "Could not connect to any node"
      (get_node_url ctx.use_testnet) := by
  constructor
  · unfold com_client
    simp only [hcache]
    have hfc := try_connect_all_fail construct
      (get_node_url ctx.use_testnet) [1, 2, 3, 4, 5] hfail
    simp only [hfc.1]
  · intro hcon
    have hslash : '/' ∈ (get_node_url ctx.use_testnet).data := by
      unfold get_node_url
      cases ctx.use_testnet <;> decide
    have := strContains_char '/' hslash hcon
    revert this
    decide

/-- Witness for C1 (amended): a fresh mainnet context with an
always-failing constructor. -/
theorem c1_connection_error_message_witness :
    (com_client (CustomCtx.mk false false false true true
        (Option.none : Option Nat)) (fun _ => Option.none)).result =
      Except.error
        (PyErr.connectionError "Could not connect to any node") ∧
    ¬ strContains "Could not connect to any node" (get_node_url false) :=
  c1_connection_error_message Nat
    (CustomCtx.mk false false false true true Option.none)
    (fun _ => Option.none) rfl (fun _ => rfl)

/-- Counterexample to C1 as stated: with a fresh mainnet context and an
always-failing constructor, the raised `ConnectionError` message is the
fixed string "Could not connect to any node", and the target node URL
does not occur in it (the URL contains a slash, the message does not). -/
theorem c1_counterexample :
    (com_client (CustomCtx.mk false false false true true
        (Option.none : Option Unit)) (fun _ => Option.none)).result =
      Except.error
        (PyErr.connectionError "Could not connect to any node") ∧
    ¬ strContains "Could not connect to any node"
      "wss://api.communeai.net" := by
  constructor
  · rfl
  · intro hcon
    have : '/' ∈ ("Could not connect to any node").data :=
      strContains_char '/' (by decide) hcon
    revert this
    decide

/-- C2: with no cached connection and a constructor failing on every
call, `com_client` makes exactly 5 construction attempts, fails with
`ConnectionError`, and leaves the context's cached connection field
unset. -/
theorem c2_com_client_five_attempts (α : Type) (ctx : CustomCtx α)
    (construct : Nat → Option α)
    (hcache : ctx._com_client = Option.none)
    (hfail : ∀ i, construct i = Option.none) :
    (com_client ctx construct).attempts = 5 ∧
    (com_client ctx construct).result = Except.error
      (PyErr.connectionError "Could not connect to any node") ∧
    (com_client ctx construct).ctx._com_client = Option.none := by
  have hfc := try_connect_all_fail construct
    (get_node_url ctx.use_testnet) [1, 2, 3, 4, 5] hfail
  unfold com_client
  simp only [hcache, hfc.1]
  exact ⟨hfc.2, trivial, trivial⟩

/-- Witness for C2: a fresh testnet context with an always-failing
constructor makes exactly 5 attempts and stays unconnected. -/
theorem c2_com_client_five_attempts_witness :
    (com_client (CustomCtx.mk false false true true true
        (Option.none : Option Nat)) (fun _ => Option.none)).attempts = 5 ∧
    (com_client (CustomCtx.mk false false true true true
        (Option.none : Option Nat)) (fun _ => Option.none)).result =
      Except.error
        (PyErr.connectionError "Could not connect to any node") ∧
    (com_client (CustomCtx.mk false false true true true
        (Option.none : Option Nat))
        (fun _ => Option.none)).ctx._com_client = Option.none :=
  c2_com_client_five_attempts Nat
    (CustomCtx.mk false false true true true Option.none)
    (fun _ => Option.none) rfl (fun _ => rfl)

